import Mathlib

/-!
# Verification of the `balancers` round-robin load-balancing library

Shallow embedding of the `balancers` Go package and its `roundrobin`
sub-package, together with proofs about the behaviour its specification
describes.

* `Balancers` models `connection.go`: the `HttpConnection` state
  (`broken` flag and `currentRetryInterval`), the probe `checkBroken`,
  the backoff computation `getNextInterval`, the constructor
  `NewHttpConnection`, and a transition system for the `heartbeat`
  goroutine together with `Close`.
* `RoundRobin` models `roundrobin/balancer.go`: the balancer state
  (connection list plus rotating cursor), `Get`, `Connections`,
  `NewBalancer` and `NewBalancerFromURL` with its option validation.

Durations (`time.Duration`, an `int64` count of nanoseconds) are modelled
as `Int`, with 64-bit wrap-around made explicit where the code multiplies.
Where aliasing matters (the `Connections` snapshot), pointers are modelled
as `Nat` addresses into explicit heaps: one heap of `HttpConnection`
structs — whose cells carry the `url` pointer and the `heartbeatStop`
channel handle that a Go struct copy shares with the original — and one
heap of the URL values those pointers designate.
-/

namespace Balancers

/-- 64-bit two's-complement wrap-around, the behaviour of Go `int64`
arithmetic on overflow. -/
def wrap64 (x : Int) : Int :=
  (x + 2 ^ 63) % 2 ^ 64 - 2 ^ 63

/-- `initialRetryInterval = 30 * time.Second`, in nanoseconds. -/
def initialRetryInterval : Int := 30 * 1000000000

/-- `maxRetryInterval = 5 * time.Minute`, in nanoseconds. -/
def maxRetryInterval : Int := 5 * 60 * 1000000000

/-- `retryMultiplier = 2`. -/
def retryMultiplier : Int := 2

/-- `testInitialRetryInterval = 100 * time.Millisecond`, in nanoseconds. -/
def testInitialRetryInterval : Int := 100 * 1000000

/-- `testMaxRetryInterval = 500 * time.Millisecond`, in nanoseconds. -/
def testMaxRetryInterval : Int := 500 * 1000000

/-- The initial retry interval selected by the global `testMode` flag:
`testInitialRetryInterval` in test mode, `initialRetryInterval` otherwise. -/
def initialIntervalOf (testMode : Bool) : Int :=
  if testMode then testInitialRetryInterval else initialRetryInterval

/-- The maximum retry interval selected by the global `testMode` flag:
`testMaxRetryInterval` in test mode, `maxRetryInterval` otherwise. -/
def maxIntervalOf (testMode : Bool) : Int :=
  if testMode then testMaxRetryInterval else maxRetryInterval

/-- The mutable state of an `HttpConnection` relevant to liveness and
backoff: the `broken` flag and `currentRetryInterval`.  The `url`,
`client`, `logger`, `userAgent` fields and the stop channel are not part
of this value state (the channel is modelled by the transition system
below; the others are immutable handles). -/
structure HttpConnection where
  broken : Bool
  currentRetryInterval : Int
  deriving Repr, DecidableEq

/-- Outcome of one HTTP probe as observed by `checkBroken`:
`http.NewRequest` failed, `client.Do` returned an error (transport
failure), or a response with the given status code arrived. -/
inductive ProbeResult
  | newRequestError
  | doError
  | response (statusCode : Nat)
  deriving Repr, DecidableEq

/-- `checkBroken` (connection.go): request-construction failure and
transport failure mark the connection broken; a response marks it
not-broken exactly when the status equals `http.StatusOK` (200).  The Go
function returns nothing: no outcome is propagated as an error, only the
`broken` flag is updated. -/
def checkBroken (r : ProbeResult) (c : HttpConnection) : HttpConnection :=
  match r with
  | .newRequestError => { c with broken := true }
  | .doError => { c with broken := true }
  | .response statusCode =>
      if statusCode = 200 then { c with broken := false }
      else { c with broken := true }

/-- `NewHttpConnection` (connection.go): the struct literal leaves
`broken` at its zero value `false` and sets `currentRetryInterval` to
`initialRetryInterval`, overridden to `testInitialRetryInterval` when
the global `testMode` flag is set; then one synchronous `checkBroken`
runs before the heartbeat goroutine is started.  `testMode` is the value
of the global flag at construction time and `firstProbe` the outcome of
that synchronous probe. -/
def NewHttpConnection (testMode : Bool) (firstProbe : ProbeResult) : HttpConnection :=
  let c : HttpConnection := { broken := false, currentRetryInterval := initialRetryInterval }
  let c := if testMode then { c with currentRetryInterval := testInitialRetryInterval } else c
  checkBroken firstProbe c

/-- `getNextInterval` (connection.go): under the connection's lock, when
the connection is not broken the interval is reset to the initial
interval of the current mode; otherwise the interval is multiplied by
`retryMultiplier` (a Go `int64` multiplication, hence `wrap64`) and
capped at the maximum interval of the current mode.  The computed value
is both stored in `currentRetryInterval` and returned.  `testMode` is
the value of the global flag at the time of the call. -/
def getNextInterval (testMode : Bool) (c : HttpConnection) : Int × HttpConnection :=
  if testMode then
    if !c.broken then
      (testInitialRetryInterval, { c with currentRetryInterval := testInitialRetryInterval })
    else
      let nextInterval := wrap64 (c.currentRetryInterval * retryMultiplier)
      let nextInterval :=
        if nextInterval > testMaxRetryInterval then testMaxRetryInterval else nextInterval
      (nextInterval, { c with currentRetryInterval := nextInterval })
  else
    if !c.broken then
      (initialRetryInterval, { c with currentRetryInterval := initialRetryInterval })
    else
      let nextInterval := wrap64 (c.currentRetryInterval * retryMultiplier)
      let nextInterval :=
        if nextInterval > maxRetryInterval then maxRetryInterval else nextInterval
      (nextInterval, { c with currentRetryInterval := nextInterval })

/-- One event in the life of an `HttpConnection` after construction:
either a probe completes (`checkBroken` runs with the given outcome) or
the heartbeat computes the next interval (`getNextInterval` runs). -/
inductive ConnEvent
  | probe (r : ProbeResult)
  | nextInterval
  deriving Repr, DecidableEq

/-- Apply one `ConnEvent` to a connection, with `testMode` the value of
the global flag at the time of the event. -/
def connStep (testMode : Bool) (c : HttpConnection) : ConnEvent → HttpConnection
  | .probe r => checkBroken r c
  | .nextInterval => (getNextInterval testMode c).2

/-- The connection state reached from `NewHttpConnection testMode firstProbe`
after a sequence of events, all executed with the same `testMode`. -/
def runConn (testMode : Bool) (firstProbe : ProbeResult) (evs : List ConnEvent) : HttpConnection :=
  evs.foldl (connStep testMode) (NewHttpConnection testMode firstProbe)

end Balancers

namespace Balancers

/-! ## The heartbeat goroutine and `Close` as a transition system

`heartbeat` loops over a `select` between a timer (armed with
`getNextInterval`, evaluated on every entry into the `select`) and the
unbuffered `heartbeatStop` channel; `Close` sends on that channel — an
unbuffered send is a rendezvous, completing only when the loop receives
it — and then resets `broken` to `false` before returning. -/

/-- Control state of the `heartbeat` goroutine: blocked in its `select`
(timer armed), or returned. -/
inductive HbState
  | selecting
  | done
  deriving Repr, DecidableEq

/-- Control state of the (single-owner) `Close` caller: not yet called;
blocked sending on `heartbeatStop`; past the rendezvous but not yet
returned (about to reset `broken`); returned. -/
inductive CloseState
  | idle
  | sending
  | afterSend
  | returned
  deriving Repr, DecidableEq

/-- Joint state of one connection, its heartbeat goroutine and its
`Close` caller. -/
structure SysState where
  conn : HttpConnection
  hb : HbState
  cl : CloseState
  deriving Repr, DecidableEq

/-- Interleaved small-step semantics of `heartbeat` and `Close`.
`timerFire r` is one loop iteration: the timer fires, `checkBroken` runs
with outcome `r`, then the loop re-enters the `select`, re-evaluating
`getNextInterval`.  `closeCall` is the caller entering `Close`.
`rendezvous` is the unbuffered send in `Close` meeting the receive in
the loop's `select`, after which the loop returns.  `closeReturn` is
`Close` setting `broken = false` and returning. -/
inductive HbStep (testMode : Bool) : SysState → SysState → Prop
  | timerFire (r : ProbeResult) (c : HttpConnection) (cl : CloseState) :
      HbStep testMode ⟨c, .selecting, cl⟩
        ⟨(getNextInterval testMode (checkBroken r c)).2, .selecting, cl⟩
  | closeCall (c : HttpConnection) (hb : HbState) :
      HbStep testMode ⟨c, hb, .idle⟩ ⟨c, hb, .sending⟩
  | rendezvous (c : HttpConnection) :
      HbStep testMode ⟨c, .selecting, .sending⟩ ⟨c, .done, .afterSend⟩
  | closeReturn (c : HttpConnection) (hb : HbState) :
      HbStep testMode ⟨c, hb, .afterSend⟩ ⟨{ c with broken := false }, hb, .returned⟩

/-- State just after `NewHttpConnection` spawned the heartbeat goroutine
and that goroutine entered its `select` for the first time (evaluating
`getNextInterval` to arm the timer): `Close` has not been called. -/
def initSys (testMode : Bool) (firstProbe : ProbeResult) : SysState :=
  ⟨(getNextInterval testMode (NewHttpConnection testMode firstProbe)).2, .selecting, .idle⟩

/-- Reachability for the heartbeat/Close system. -/
def sysReach (testMode : Bool) : SysState → SysState → Prop :=
  Relation.ReflTransGen (HbStep testMode)

end Balancers

namespace RoundRobin

open Balancers

/-- Modelled from the spec: the sentinel error `ErrNoConn` of the
`balancers` package root — "no connection available" — whose defining
file is not among the supplied sources (only `Get` and the tests refer
to it).  Per the spec, the empty pool and the all-broken pool both
surface this same sentinel. -/
def ErrNoConn : String := "no connection available"

/-- `Balancer` (roundrobin/balancer.go): the ordered connection list and
the rotating cursor `idx`.  The element type is abstract, with the
`IsBroken` interface method supplied as a function, matching the Go
`balancers.Connection` interface. -/
structure Balancer (α : Type) where
  conns : List α
  idx : Nat
  deriving Repr, DecidableEq

/-- The `for i := 0; i < len(b.conns); i++` loop body of `Get`, with
`fuel` the remaining iteration count: read `conns[idx]`, advance the
cursor to `(idx + 1) % len(conns)`, stop at the first candidate whose
`IsBroken()` is false.  Returns the selected element (if any), the final
cursor, and the number of candidates examined. -/
def getLoop (isBroken : α → Bool) (conns : List α) : Nat → Nat → Option α × Nat × Nat
  | idx, 0 => (none, idx, 0)
  | idx, fuel + 1 =>
    match conns[idx]? with
    | none => (none, idx, 0)
    | some candidate =>
      let idx2 := (idx + 1) % conns.length
      if isBroken candidate then
        let r := getLoop isBroken conns idx2 fuel
        (r.1, r.2.1, r.2.2 + 1)
      else
        (some candidate, idx2, 1)

/-- `Get` (roundrobin/balancer.go): on an empty pool, fail with
`ErrNoConn` at once; otherwise run the loop for at most `len(conns)`
iterations and either return the first not-broken candidate or fail
with `ErrNoConn`.  The cursor movements of the loop persist in the
returned balancer. -/
def Get (isBroken : α → Bool) (b : Balancer α) : Except String α × Balancer α :=
  if b.conns.length = 0 then
    (.error ErrNoConn, b)
  else
    let r := getLoop isBroken b.conns b.idx b.conns.length
    match r.1 with
    | none => (.error ErrNoConn, { b with idx := r.2.1 })
    | some c => (.ok c, { b with idx := r.2.1 })

/-- Number of candidates examined by one `Get` call (the number of loop
iterations that read a candidate and tested `IsBroken`). -/
def getExamined (isBroken : α → Bool) (b : Balancer α) : Nat :=
  if b.conns.length = 0 then 0
  else (getLoop isBroken b.conns b.idx b.conns.length).2.2

/-- The balancer state after `k` consecutive `Get` calls. -/
def afterCalls (isBroken : α → Bool) (b : Balancer α) : Nat → Balancer α
  | 0 => b
  | k + 1 => (Get isBroken (afterCalls isBroken b k)).2

/-- The result of the `(k+1)`-th consecutive `Get` call (0-indexed:
`callResult … 0` is the first call). -/
def callResult (isBroken : α → Bool) (b : Balancer α) (k : Nat) : Except String α :=
  (Get isBroken (afterCalls isBroken b k)).1

end RoundRobin

namespace RoundRobin

open Balancers

/-! ## The heap model for `Connections`

`Connections` clones each `*HttpConnection` with a struct copy
(`*cr = *oc`) into a fresh allocation; values of any other concrete type
are not cloned and leave the corresponding slice entry at its zero value
`nil`.  Pointers are `Nat` addresses into heaps, fresh addresses are
drawn from an allocation counter.  The struct copy duplicates the value
fields (`broken`, `currentRetryInterval`) but copies the `url` field as
a pointer and the `heartbeatStop` field as a channel handle: the clone
therefore shares the pointed-to URL and the stop channel with its
original. -/

/-- One heap-allocated `HttpConnection` struct (connection.go) as seen by
the snapshot model: the mutable value fields `broken` and
`currentRetryInterval`, the pointer-valued field `url` (`urlPtr`, an
address into a separate heap of URL values) and the channel-valued field
`heartbeatStop` (`heartbeatStopChan`, the identifier of the unbuffered
channel the connection's heartbeat loop receives its stop signal on).
A Go struct copy copies all four fields, so a copy duplicates the two
value fields but shares the URL pointee and the channel. -/
structure HttpConnCell where
  broken : Bool
  currentRetryInterval : Int
  urlPtr : Nat
  heartbeatStopChan : Nat
  deriving Repr, DecidableEq

/-- A value of the Go interface type `balancers.Connection` as stored in
the pool: a pointer to a heap-allocated `HttpConnection`, or a value of
some other concrete type implementing the interface, abstracted by what
its `IsBroken` method returns. -/
inductive Connection
  | http (addr : Nat)
  | otherImpl (isBrokenValue : Bool)
  deriving Repr, DecidableEq

/-- The `IsBroken` interface method: an `*HttpConnection` reads its
heap cell's `broken` field; another implementation returns its own
value. -/
def isBrokenRef (heap : Nat → HttpConnCell) : Connection → Bool
  | .http addr => (heap addr).broken
  | .otherImpl v => v

/-- The `URL` interface method of an `*HttpConnection`: dereference the
cell's `url` pointer in the heap of URL values.  A caller holding the
cell can also mutate the pointee through this pointer
(`conn.URL().Host = …`), which is a write to `urlHeap` at `cell.urlPtr`. -/
def connURL (urlHeap : Nat → String) (cell : HttpConnCell) : String :=
  urlHeap cell.urlPtr

/-- Write one heap cell. -/
def heapWrite {β : Type} (heap : Nat → β) (addr : Nat) (v : β) : Nat → β :=
  fun a => if a = addr then v else heap a

/-- `NewBalancer` (roundrobin/balancer.go): start from an empty slice,
append the given connections; the cursor starts at the `int` zero value
`0`. -/
def NewBalancer (conns : List Connection) : Balancer Connection :=
  { conns := conns, idx := 0 }

/-- The `for i, c := range b.conns` loop of `Connections`: the result
slice starts as `make(..., len(b.conns))`, all entries `nil` (`none`);
each `*HttpConnection` is cloned by the struct copy `*cr = *oc` into a
fresh allocation — the whole cell is copied, so the clone's `urlPtr` and
`heartbeatStopChan` still designate the original's URL value and stop
channel — and the entry is set to the clone's address; entries for other
concrete types are left `nil`.  Returns the result slice, the connection
heap after the allocations, and the next free address.  The heap of URL
values is untouched. -/
def connectionsLoop (heap : Nat → HttpConnCell) (next : Nat) :
    List Connection → List (Option Connection) × (Nat → HttpConnCell) × Nat
  | [] => ([], heap, next)
  | c :: rest =>
    match c with
    | .http addr =>
      let heap1 := heapWrite heap next (heap addr)
      let r := connectionsLoop heap1 (next + 1) rest
      (some (.http next) :: r.1, r.2)
    | .otherImpl _ =>
      let r := connectionsLoop heap next rest
      (none :: r.1, r.2)

/-- `Connections` (roundrobin/balancer.go), in the heap model: `next` is
the allocation counter (every live address is below it). -/
def Connections (b : Balancer Connection) (heap : Nat → HttpConnCell) (next : Nat) :
    List (Option Connection) × (Nat → HttpConnCell) × Nat :=
  connectionsLoop heap next b.conns

end RoundRobin

namespace RoundRobin

open Balancers

/-! ## `NewBalancerFromURL` and its option validation -/

/-- `BalancerOptions` (roundrobin/balancer.go): the retry intervals are
Go `time.Duration` (`int64` nanoseconds), modelled as `Int`; the HTTP
client handle is opaque and irrelevant to validation, so it is omitted
here. -/
structure BalancerOptions where
  initialRetryInterval : Int
  maxRetryInterval : Int
  deriving Repr, DecidableEq

/-- `defaultOptions`: 30 s initial and 5 min maximum retry interval. -/
def defaultOptions : BalancerOptions :=
  { initialRetryInterval := 30 * 1000000000, maxRetryInterval := 5 * 60 * 1000000000 }

/-- `WithInitialRetryInterval`. -/
def WithInitialRetryInterval (interval : Int) : BalancerOptions → BalancerOptions :=
  fun o => { o with initialRetryInterval := interval }

/-- `WithMaxRetryInterval`. -/
def WithMaxRetryInterval (interval : Int) : BalancerOptions → BalancerOptions :=
  fun o => { o with maxRetryInterval := interval }

/-- Apply the option functions to `defaultOptions` in order, as the
`for _, opt := range opts` loop does. -/
def applyOptions (opts : List (BalancerOptions → BalancerOptions)) : BalancerOptions :=
  opts.foldl (fun o f => f o) defaultOptions

/-- The `for _, rawurl := range urls` loop of `NewBalancerFromURL`:
parse each URL (`url.Parse`, abstracted as `parse`; `none` models a
parse error), create an `HttpConnection` for it (which immediately
probes and starts a heartbeat) and append it.  Returns the outcome
together with the number of `NewHttpConnection` calls made, so that
claims about what was created before a failure can be stated. -/
def buildConns (parse : String → Option String) :
    List String → List String → Nat → Except String (List String) × Nat
  | [], acc, made => (.ok acc, made)
  | rawurl :: rest, acc, made =>
    match parse rawurl with
    | none => (.error "url parse error", made)
    | some u => buildConns parse rest (acc ++ [u]) (made + 1)

/-- `NewBalancerFromURL` (roundrobin/balancer.go): apply the options,
validate the retry intervals — each violation returns its descriptive
error before any connection is created — then build one connection per
URL.  The result carries the parsed URLs of the pool (success) or the
error, alongside the number of connections created. -/
def NewBalancerFromURL (parse : String → Option String) (urls : List String)
    (opts : List (BalancerOptions → BalancerOptions)) :
    Except String (List String) × Nat :=
  let options := applyOptions opts
  if options.initialRetryInterval ≤ 0 then
    (.error "initial retry interval must be greater than 0", 0)
  else if options.maxRetryInterval ≤ 0 then
    (.error "max retry interval must be greater than 0", 0)
  else if options.maxRetryInterval < options.initialRetryInterval then
    (.error "max retry interval must be greater than or equal to initial retry interval", 0)
  else
    buildConns parse urls [] 0

end RoundRobin

/-! ## Helper lemmas -/

namespace Balancers

theorem wrap64_eq_self {x : Int} (h1 : -(2 ^ 63) ≤ x) (h2 : x < 2 ^ 63) : wrap64 x = x := by
  unfold wrap64
  omega

theorem checkBroken_currentRetryInterval (r : ProbeResult) (c : HttpConnection) :
    (checkBroken r c).currentRetryInterval = c.currentRetryInterval := by
  cases r with
  | newRequestError => rfl
  | doError => rfl
  | response s =>
    by_cases hs : s = 200 <;> simp [checkBroken, hs]

end Balancers

namespace RoundRobin

variable {α : Type}

theorem getLoop_examined_le (f : α → Bool) (conns : List α) :
    ∀ fuel idx, (getLoop f conns idx fuel).2.2 ≤ fuel := by
  intro fuel
  induction fuel with
  | zero => intro idx; simp [getLoop]
  | succ n ih =>
    intro idx
    cases hc : conns[idx]? with
    | none => simp [getLoop, hc]
    | some c =>
      by_cases hb : f c = true
      · simp only [getLoop, hc, hb, if_true]
        exact Nat.succ_le_succ (ih _)
      · simp only [Bool.not_eq_true] at hb
        simp [getLoop, hc, hb]

theorem getLoop_all_broken (f : α → Bool) (conns : List α)
    (hall : ∀ c ∈ conns, f c = true) :
    ∀ fuel idx, idx < conns.length →
      getLoop f conns idx fuel = (none, (idx + fuel) % conns.length, fuel) := by
  intro fuel
  induction fuel with
  | zero =>
    intro idx hidx
    simp [getLoop, Nat.mod_eq_of_lt hidx]
  | succ n ih =>
    intro idx hidx
    have hc : conns[idx]? = some conns[idx] := List.getElem?_eq_getElem hidx
    have hb : f conns[idx] = true := hall _ (List.getElem_mem hidx)
    have hn : 0 < conns.length := Nat.lt_of_le_of_lt (Nat.zero_le _) hidx
    have hidx2 : (idx + 1) % conns.length < conns.length := Nat.mod_lt _ hn
    simp only [getLoop, hc, hb, if_true]
    rw [ih _ hidx2]
    have harith : ((idx + 1) % conns.length + n) % conns.length
        = (idx + (n + 1)) % conns.length := by
      rw [Nat.mod_add_mod]
      have : idx + 1 + n = idx + (n + 1) := by omega
      rw [this]
    simp [harith]

theorem getLoop_found (f : α → Bool) (conns : List α) (hn : 0 < conns.length) :
    ∀ k₀ fuel idx, idx < conns.length → k₀ < fuel →
      (∀ k, k < k₀ → ∀ c, conns[(idx + k) % conns.length]? = some c → f c = true) →
      ∀ c₀, conns[(idx + k₀) % conns.length]? = some c₀ → f c₀ = false →
      getLoop f conns idx fuel = (some c₀, (idx + k₀ + 1) % conns.length, k₀ + 1) := by
  intro k₀
  induction k₀ with
  | zero =>
    intro fuel idx hidx hfuel _ c₀ hc₀ hlive
    obtain ⟨m, rfl⟩ : ∃ m, fuel = m + 1 := ⟨fuel - 1, by omega⟩
    rw [Nat.add_zero, Nat.mod_eq_of_lt hidx] at hc₀
    simp [getLoop, hc₀, hlive]
  | succ k ihk =>
    intro fuel idx hidx hfuel hbefore c₀ hc₀ hlive
    obtain ⟨m, rfl⟩ : ∃ m, fuel = m + 1 := ⟨fuel - 1, by omega⟩
    have hcidx : conns[idx]? = some conns[idx] := List.getElem?_eq_getElem hidx
    have hbidx : f conns[idx] = true := by
      apply hbefore 0 (Nat.succ_pos _)
      rw [Nat.add_zero, Nat.mod_eq_of_lt hidx]
      exact hcidx
    have hidx2 : (idx + 1) % conns.length < conns.length := Nat.mod_lt _ hn
    have hshift : ∀ j, ((idx + 1) % conns.length + j) % conns.length
        = (idx + (j + 1)) % conns.length := by
      intro j
      rw [Nat.mod_add_mod]
      have : idx + 1 + j = idx + (j + 1) := by omega
      rw [this]
    simp only [getLoop, hcidx, hbidx, if_true]
    rw [ihk m ((idx + 1) % conns.length) hidx2 (by omega)
      (fun k' hk' c hc => hbefore (k' + 1) (by omega) c (by rw [← hshift k']; exact hc))
      c₀ (by rwa [hshift k]) hlive]
    have : (idx + 1) % conns.length + k + 1 = (idx + 1) % conns.length + (k + 1) := by omega
    rw [this, Nat.mod_add_mod]
    have : idx + 1 + (k + 1) = idx + (k + 1) + 1 := by omega
    rw [this]

theorem getLoop_ok_of_exists (f : α → Bool) (conns : List α) (hn : 0 < conns.length) :
    ∀ fuel idx, idx < conns.length →
      (∃ k, k < fuel ∧ ∃ c, conns[(idx + k) % conns.length]? = some c ∧ f c = false) →
      ∃ c, (getLoop f conns idx fuel).1 = some c := by
  intro fuel
  induction fuel with
  | zero =>
    intro idx _ ⟨k, hk, _⟩
    omega
  | succ m ih =>
    intro idx hidx ⟨k, hk, c, hc, hlive⟩
    have hcidx : conns[idx]? = some conns[idx] := List.getElem?_eq_getElem hidx
    by_cases hb : f conns[idx] = true
    · have hk0 : k ≠ 0 := by
        intro h0
        rw [h0, Nat.add_zero, Nat.mod_eq_of_lt hidx, hcidx] at hc
        cases hc
        rw [hb] at hlive
        cases hlive
      have hidx2 : (idx + 1) % conns.length < conns.length := Nat.mod_lt _ hn
      have hshift : ((idx + 1) % conns.length + (k - 1)) % conns.length
          = (idx + k) % conns.length := by
        rw [Nat.mod_add_mod]
        have : idx + 1 + (k - 1) = idx + k := by omega
        rw [this]
      obtain ⟨c', hc'⟩ := ih ((idx + 1) % conns.length) hidx2
        ⟨k - 1, by omega, c, by rwa [hshift], hlive⟩
      exact ⟨c', by simp only [getLoop, hcidx, hb, if_true]; exact hc'⟩
    · simp only [Bool.not_eq_true] at hb
      exact ⟨conns[idx], by simp [getLoop, hcidx, hb]⟩

theorem getLoop_result_cases (f : α → Bool) (conns : List α) :
    ∀ fuel idx, (getLoop f conns idx fuel).1 = none ∨
      ∃ c, (getLoop f conns idx fuel).1 = some c ∧ c ∈ conns ∧ f c = false := by
  intro fuel
  induction fuel with
  | zero => intro idx; left; simp [getLoop]
  | succ m ih =>
    intro idx
    cases hc : conns[idx]? with
    | none => left; simp [getLoop, hc]
    | some c =>
      have hmem : c ∈ conns := by
        rw [List.getElem?_eq_some] at hc
        obtain ⟨h, rfl⟩ := hc
        exact List.getElem_mem h
      by_cases hb : f c = true
      · rcases ih ((idx + 1) % conns.length) with h | ⟨c', hc', hm', hl'⟩
        · left; simp only [getLoop, hc, hb, if_true]; exact h
        · right; exact ⟨c', by simp only [getLoop, hc, hb, if_true]; exact hc', hm', hl'⟩
      · simp only [Bool.not_eq_true] at hb
        right
        exact ⟨c, by simp [getLoop, hc, hb], hmem, hb⟩

theorem getLoop_congr (f g : α → Bool) (conns : List α)
    (hfg : ∀ c ∈ conns, f c = g c) :
    ∀ fuel idx, getLoop f conns idx fuel = getLoop g conns idx fuel := by
  intro fuel
  induction fuel with
  | zero => intro idx; rfl
  | succ m ih =>
    intro idx
    cases hc : conns[idx]? with
    | none => simp [getLoop, hc]
    | some c =>
      have hmem : c ∈ conns := by
        rw [List.getElem?_eq_some] at hc
        obtain ⟨h, rfl⟩ := hc
        exact List.getElem_mem h
      simp only [getLoop, hc, hfg c hmem]
      rw [ih ((idx + 1) % conns.length)]

theorem rot_hit {n : Nat} (hn : 0 < n) {idx j : Nat} (hidx : idx < n) (hj : j < n) :
    ∃ k, k < n ∧ (idx + k) % n = j := by
  refine ⟨(j + (n - idx)) % n, Nat.mod_lt _ hn, ?_⟩
  rw [Nat.add_mod_mod]
  have : idx + (j + (n - idx)) = j + n := by omega
  rw [this, Nat.add_mod_right, Nat.mod_eq_of_lt hj]

theorem rot_inj {n : Nat} {idx k l : Nat} (hk : k < n) (hl : l < n)
    (h : (idx + k) % n = (idx + l) % n) : k = l := by
  have hmod : k ≡ l [MOD n] := Nat.ModEq.add_left_cancel' idx h
  have h2 : k % n = l % n := hmod
  rwa [Nat.mod_eq_of_lt hk, Nat.mod_eq_of_lt hl] at h2

end RoundRobin

namespace RoundRobin

variable {α : Type}

theorem Get_conns (f : α → Bool) (b : Balancer α) : (Get f b).2.conns = b.conns := by
  unfold Get
  split
  · rfl
  · dsimp only
    split <;> rfl

theorem Get_congr (f g : α → Bool) (b : Balancer α) (hfg : ∀ c ∈ b.conns, f c = g c) :
    Get f b = Get g b := by
  unfold Get
  rw [getLoop_congr f g b.conns hfg]

theorem afterCalls_conns (f : α → Bool) (b : Balancer α) :
    ∀ k, (afterCalls f b k).conns = b.conns := by
  intro k
  induction k with
  | zero => rfl
  | succ k ih =>
    simp only [afterCalls]
    rw [Get_conns, ih]

theorem afterCalls_congr (f g : α → Bool) (b : Balancer α)
    (hfg : ∀ c ∈ b.conns, f c = g c) :
    ∀ k, afterCalls f b k = afterCalls g b k := by
  intro k
  induction k with
  | zero => rfl
  | succ k ih =>
    simp only [afterCalls]
    rw [ih, Get_congr f g (afterCalls g b k) (by rw [afterCalls_conns]; exact hfg)]

theorem callResult_congr (f g : α → Bool) (b : Balancer α)
    (hfg : ∀ c ∈ b.conns, f c = g c) :
    ∀ k, callResult f b k = callResult g b k := by
  intro k
  unfold callResult
  rw [afterCalls_congr f g b hfg,
    Get_congr f g (afterCalls g b k) (by rw [afterCalls_conns]; exact hfg)]

theorem Get_all_live (f : α → Bool) (b : Balancer α)
    (hidx : b.idx < b.conns.length) (hlive : ∀ c ∈ b.conns, f c = false) :
    Get f b = (.ok b.conns[b.idx], { b with idx := (b.idx + 1) % b.conns.length })
      ∧ getExamined f b = 1 := by
  have hn : 0 < b.conns.length := Nat.lt_of_le_of_lt (Nat.zero_le _) hidx
  have hloop := getLoop_found f b.conns hn 0 b.conns.length b.idx hidx hn
    (fun k hk => by omega)
    b.conns[b.idx]
    (by rw [Nat.add_zero, Nat.mod_eq_of_lt hidx]; exact List.getElem?_eq_getElem hidx)
    (hlive _ (List.getElem_mem hidx))
  constructor
  · unfold Get
    rw [if_neg (by omega), hloop]
  · unfold getExamined
    rw [if_neg (by omega), hloop]

end RoundRobin

namespace Balancers

theorem NewHttpConnection_currentRetryInterval (m : Bool) (p : ProbeResult) :
    (NewHttpConnection m p).currentRetryInterval = initialIntervalOf m := by
  cases m <;>
    simp [NewHttpConnection, checkBroken_currentRetryInterval, initialIntervalOf]

theorem connStep_interval_bounds (m : Bool) (c : HttpConnection)
    (h1 : initialIntervalOf m ≤ c.currentRetryInterval)
    (h2 : c.currentRetryInterval ≤ maxIntervalOf m) (ev : ConnEvent) :
    initialIntervalOf m ≤ (connStep m c ev).currentRetryInterval ∧
      (connStep m c ev).currentRetryInterval ≤ maxIntervalOf m := by
  cases ev with
  | probe r =>
    simp only [connStep]
    rw [checkBroken_currentRetryInterval]
    exact ⟨h1, h2⟩
  | nextInterval =>
    simp only [initialIntervalOf, maxIntervalOf, testInitialRetryInterval,
      testMaxRetryInterval, initialRetryInterval, maxRetryInterval] at h1 h2 ⊢
    cases m <;> cases hb : c.broken <;>
      simp only [connStep, getNextInterval, hb, Bool.not_true, Bool.not_false, if_true,
        if_false, Bool.false_eq_true, Bool.true_eq_false, ite_true, ite_false,
        initialIntervalOf, maxIntervalOf, testInitialRetryInterval, testMaxRetryInterval,
        initialRetryInterval, maxRetryInterval, retryMultiplier, wrap64] at h1 h2 ⊢ <;>
      omega

theorem foldl_interval_bounds (m : Bool) :
    ∀ (evs : List ConnEvent) (c : HttpConnection),
      initialIntervalOf m ≤ c.currentRetryInterval →
      c.currentRetryInterval ≤ maxIntervalOf m →
      initialIntervalOf m ≤ (evs.foldl (connStep m) c).currentRetryInterval ∧
        (evs.foldl (connStep m) c).currentRetryInterval ≤ maxIntervalOf m := by
  intro evs
  induction evs with
  | nil => intro c h1 h2; exact ⟨h1, h2⟩
  | cons ev rest ih =>
    intro c h1 h2
    obtain ⟨h1', h2'⟩ := connStep_interval_bounds m c h1 h2 ev
    exact ih _ h1' h2'

theorem sysInv (m : Bool) (p : ProbeResult) (s : SysState)
    (h : sysReach m (initSys m p) s) :
    (s.cl = CloseState.afterSend ∨ s.cl = CloseState.returned → s.hb = HbState.done) ∧
      (s.cl = CloseState.returned → s.conn.broken = false) := by
  induction h with
  | refl =>
    refine ⟨fun hc => ?_, fun hc => ?_⟩
    · rcases hc with hc | hc <;> simp [initSys] at hc
    · simp [initSys] at hc
  | tail hab hbc ih =>
    cases hbc with
    | timerFire r c cl =>
      refine ⟨fun hc => ?_, fun hc => ?_⟩
      · have := ih.1 hc
        simp at this
      · have := ih.1 (Or.inr hc)
        simp at this
    | closeCall c hb =>
      refine ⟨fun hc => ?_, fun hc => ?_⟩
      · rcases hc with hc | hc <;> simp at hc
      · simp at hc
    | rendezvous c =>
      refine ⟨fun _ => rfl, fun hc => ?_⟩
      · simp at hc
    | closeReturn c hb =>
      refine ⟨fun _ => ih.1 (Or.inl rfl), fun _ => rfl⟩

end Balancers

namespace RoundRobin

theorem connectionsLoop_spec (conns : List Connection) :
    ∀ (heap : Nat → HttpConnCell) (next : Nat),
      (∀ a, some (Connection.http a) ∈ (connectionsLoop heap next conns).1 → next ≤ a) ∧
      (∀ a, a < next → (connectionsLoop heap next conns).2.1 a = heap a) := by
  induction conns with
  | nil =>
    intro heap next
    refine ⟨fun a ha => ?_, fun a _ => rfl⟩
    simp [connectionsLoop] at ha
  | cons c rest ih =>
    intro heap next
    cases c with
    | http addr =>
      obtain ⟨ih1, ih2⟩ := ih (heapWrite heap next (heap addr)) (next + 1)
      refine ⟨fun a ha => ?_, fun a ha => ?_⟩
      · simp only [connectionsLoop, List.mem_cons] at ha
        rcases ha with ha | ha
        · simp only [Option.some.injEq, Connection.http.injEq] at ha
          omega
        · have := ih1 a ha
          omega
      · simp only [connectionsLoop]
        rw [ih2 a (by omega)]
        simp only [heapWrite]
        rw [if_neg (by omega)]
    | otherImpl v =>
      obtain ⟨ih1, ih2⟩ := ih heap next
      refine ⟨fun a ha => ?_, fun a ha => ?_⟩
      · simp only [connectionsLoop, List.mem_cons] at ha
        rcases ha with ha | ha
        · simp at ha
        · exact ih1 a ha
      · simp only [connectionsLoop]
        exact ih2 a ha

theorem connectionsLoop_clone (conns : List Connection) :
    ∀ (heap : Nat → HttpConnCell) (next : Nat),
      (∀ a, Connection.http a ∈ conns → a < next) →
      ∀ (i a : Nat), conns[i]? = some (Connection.http a) →
        ∃ a2 : Nat, (connectionsLoop heap next conns).1[i]? = some (some (Connection.http a2)) ∧
          next ≤ a2 ∧ (connectionsLoop heap next conns).2.1 a2 = heap a := by
  induction conns with
  | nil =>
    intro heap next _ i a hi
    simp at hi
  | cons c rest ih =>
    intro heap next hwf i a hi
    cases c with
    | http addr =>
      cases i with
      | zero =>
        simp only [List.getElem?_cons_zero, Option.some.injEq, Connection.http.injEq] at hi
        subst hi
        refine ⟨next, ?_, le_refl next, ?_⟩
        · simp only [connectionsLoop, List.getElem?_cons_zero]
        · simp only [connectionsLoop]
          have hpres := (connectionsLoop_spec rest (heapWrite heap next (heap addr))
            (next + 1)).2
          rw [hpres next (by omega)]
          simp [heapWrite]
      | succ i =>
        have hi2 : rest[i]? = some (Connection.http a) := by simpa using hi
        obtain ⟨a2, h1, h2, h3⟩ := ih (heapWrite heap next (heap addr)) (next + 1)
          (fun a3 ha3 => by have := hwf a3 (List.mem_cons_of_mem _ ha3); omega) i a hi2
        refine ⟨a2, ?_, by omega, ?_⟩
        · simp only [connectionsLoop, List.getElem?_cons_succ]
          exact h1
        · simp only [connectionsLoop]
          rw [h3]
          have hmem : Connection.http a ∈ rest := by
            obtain ⟨hlt, heq⟩ := List.getElem?_eq_some.mp hi2
            exact heq ▸ List.getElem_mem hlt
          have ha : a < next := hwf a (List.mem_cons_of_mem _ hmem)
          simp only [heapWrite]
          rw [if_neg (by omega)]
    | otherImpl v =>
      cases i with
      | zero => simp at hi
      | succ i =>
        have hi2 : rest[i]? = some (Connection.http a) := by simpa using hi
        obtain ⟨a2, h1, h2, h3⟩ := ih heap next
          (fun a3 ha3 => hwf a3 (List.mem_cons_of_mem _ ha3)) i a hi2
        refine ⟨a2, ?_, h2, ?_⟩
        · simp only [connectionsLoop, List.getElem?_cons_succ]
          exact h1
        · simp only [connectionsLoop]
          exact h3

theorem buildConns_ok (parse : String → Option String) :
    ∀ (rest : List String), (∀ u ∈ rest, (parse u).isSome) → ∀ (acc : List String) (made : Nat),
      ∃ pool, buildConns parse rest acc made = (Except.ok pool, made + rest.length) ∧
        pool.length = acc.length + rest.length := by
  intro rest
  induction rest with
  | nil =>
    intro _ acc made
    exact ⟨acc, by simp [buildConns], by simp⟩
  | cons u rest' ih =>
    intro hall acc made
    obtain ⟨v, hv⟩ := Option.isSome_iff_exists.mp (hall u (List.mem_cons_self u rest'))
    obtain ⟨pool, hpool, hlen⟩ :=
      ih (fun w hw => hall w (List.mem_cons_of_mem u hw)) (acc ++ [v]) (made + 1)
    refine ⟨pool, ?_, ?_⟩
    · simp only [buildConns, hv, hpool]
      have : made + 1 + rest'.length = made + (rest'.length + 1) := by omega
      simp [this]
    · simp only [hlen]
      simp
      omega

end RoundRobin

open Balancers RoundRobin

/-! ## The claims -/

/-- **C1**: for every pool of size `N ≥ 1` in which every connection reports
not-broken, `N` consecutive `Get` calls return the connections at positions
`(idx₀ + k) % N` for `k = 0, …, N-1` — each of the `N` connections exactly
once, in insertion order starting at the current cursor (the rotation map is
injective below `N`) — the `(N+1)`-th call returns the same connection as the
first, each call examines exactly one candidate, and the cursor advances by
one modulo `N` on every candidate examined, including the one returned. -/
theorem claim_C1 {α : Type} (f : α → Bool) (b : Balancer α)
    (hidx : b.idx < b.conns.length)
    (hlive : ∀ c ∈ b.conns, f c = false) :
    (∀ k, (afterCalls f b k).conns = b.conns ∧
      (afterCalls f b k).idx = (b.idx + k) % b.conns.length) ∧
    (∀ k, getExamined f (afterCalls f b k) = 1) ∧
    (∀ k, ∃ c, b.conns[(b.idx + k) % b.conns.length]? = some c ∧
      callResult f b k = Except.ok c) ∧
    (∀ k l, k < b.conns.length → l < b.conns.length → k ≠ l →
      (b.idx + k) % b.conns.length ≠ (b.idx + l) % b.conns.length) ∧
    callResult f b b.conns.length = callResult f b 0 := by
  have hn : 0 < b.conns.length := Nat.lt_of_le_of_lt (Nat.zero_le _) hidx
  have hmain : ∀ k, (afterCalls f b k).conns = b.conns ∧
      (afterCalls f b k).idx = (b.idx + k) % b.conns.length := by
    intro k
    induction k with
    | zero =>
      exact ⟨rfl, by simp [afterCalls, Nat.mod_eq_of_lt hidx]⟩
    | succ k ih =>
      obtain ⟨ihc, ihi⟩ := ih
      have hidxk : (afterCalls f b k).idx < (afterCalls f b k).conns.length := by
        rw [ihc, ihi]
        exact Nat.mod_lt _ hn
      have hlivek : ∀ c ∈ (afterCalls f b k).conns, f c = false := by
        rw [ihc]
        exact hlive
      have hstep := (Get_all_live f (afterCalls f b k) hidxk hlivek).1
      constructor
      · simp only [afterCalls]
        rw [hstep, ihc]
      · simp only [afterCalls]
        rw [hstep]
        simp only [ihc, ihi, Nat.mod_add_mod]
        rw [Nat.add_assoc]
  have hcall : ∀ k, callResult f b k =
      Except.ok (b.conns.get ⟨(b.idx + k) % b.conns.length, Nat.mod_lt _ hn⟩) := by
    intro k
    obtain ⟨ihc, ihi⟩ := hmain k
    have hidxk : (afterCalls f b k).idx < (afterCalls f b k).conns.length := by
      rw [ihc, ihi]
      exact Nat.mod_lt _ hn
    have hlivek : ∀ c ∈ (afterCalls f b k).conns, f c = false := by
      rw [ihc]
      exact hlive
    have hstep := (Get_all_live f (afterCalls f b k) hidxk hlivek).1
    unfold callResult
    rw [hstep]
    have e1 : (afterCalls f b k).conns[(afterCalls f b k).idx]?
        = some ((afterCalls f b k).conns[(afterCalls f b k).idx]) :=
      List.getElem?_eq_getElem hidxk
    have e2 : b.conns[(b.idx + k) % b.conns.length]?
        = some (b.conns.get ⟨(b.idx + k) % b.conns.length, Nat.mod_lt _ hn⟩) := by
      simp [List.getElem?_eq_getElem (Nat.mod_lt _ hn : (b.idx + k) % b.conns.length < _)]
    have e3 : (afterCalls f b k).conns[(afterCalls f b k).idx]?
        = b.conns[(b.idx + k) % b.conns.length]? := by
      rw [ihc, ihi]
    have e4 : some ((afterCalls f b k).conns[(afterCalls f b k).idx])
        = some (b.conns.get ⟨(b.idx + k) % b.conns.length, Nat.mod_lt _ hn⟩) :=
      e1.symm.trans (e3.trans e2)
    exact congrArg Except.ok (Option.some.inj e4)
  refine ⟨hmain, ?_, ?_, ?_, ?_⟩
  · intro k
    obtain ⟨ihc, ihi⟩ := hmain k
    have hidxk : (afterCalls f b k).idx < (afterCalls f b k).conns.length := by
      rw [ihc, ihi]
      exact Nat.mod_lt _ hn
    have hlivek : ∀ c ∈ (afterCalls f b k).conns, f c = false := by
      rw [ihc]
      exact hlive
    exact (Get_all_live f (afterCalls f b k) hidxk hlivek).2
  · intro k
    refine ⟨b.conns.get ⟨(b.idx + k) % b.conns.length, Nat.mod_lt _ hn⟩, ?_, hcall k⟩
    simp [List.getElem?_eq_getElem (Nat.mod_lt _ hn : (b.idx + k) % b.conns.length < _)]
  · intro k l hk hl hne h
    exact hne (rot_inj hk hl h)
  · rw [hcall b.conns.length, hcall 0]
    have i1 : (b.idx + b.conns.length) % b.conns.length = (b.idx + 0) % b.conns.length := by
      rw [Nat.add_mod_right, Nat.add_zero]
    simp only [i1]

/-- Witness for C1 at the pool `[10, 20, 30]` with cursor `1`, everything
live: the hypotheses hold and the fourth call repeats the first. -/
theorem claim_C1_witness :
    ((⟨[10, 20, 30], 1⟩ : Balancer Nat).idx < (⟨[10, 20, 30], 1⟩ : Balancer Nat).conns.length ∧
      ∀ c ∈ (⟨[10, 20, 30], 1⟩ : Balancer Nat).conns, (fun _ => false) c = false) ∧
    callResult (fun _ => false) (⟨[10, 20, 30], 1⟩ : Balancer Nat)
        (⟨[10, 20, 30], 1⟩ : Balancer Nat).conns.length
      = callResult (fun _ => false) (⟨[10, 20, 30], 1⟩ : Balancer Nat) 0 :=
  ⟨⟨by decide, by decide⟩,
    (claim_C1 (fun _ => false) ⟨[10, 20, 30], 1⟩ (by decide) (by decide)).2.2.2.2⟩

/-- **C2**: `Get` fails with the sentinel `ErrNoConn` ("no connection
available") exactly when the pool is empty or every connection reports
broken at the moment it is examined; it examines at most `N` candidates
(`N` = pool size); and it only ever returns a not-broken member of the pool
or this one sentinel error.  The hypothesis is the balancer's cursor
invariant (cursor valid or pool empty), which holds in every reachable
state. -/
theorem claim_C2 {α : Type} (f : α → Bool) (b : Balancer α)
    (hidx : b.idx < b.conns.length ∨ b.conns = []) :
    ((Get f b).1 = Except.error ErrNoConn ↔
      (b.conns = [] ∨ ∀ c ∈ b.conns, f c = true)) ∧
    getExamined f b ≤ b.conns.length ∧
    ((Get f b).1 = Except.error ErrNoConn ∨
      ∃ c, (Get f b).1 = Except.ok c ∧ c ∈ b.conns ∧ f c = false) := by
  by_cases h0 : b.conns.length = 0
  · have he : b.conns = [] := List.length_eq_zero.mp h0
    refine ⟨?_, ?_, ?_⟩
    · simp [Get, h0, he]
    · simp [getExamined, h0]
    · left
      simp [Get, h0]
  · have hidx' : b.idx < b.conns.length := by
      rcases hidx with h | h
      · exact h
      · exact absurd (by rw [h]; rfl) h0
    have hn : 0 < b.conns.length := Nat.pos_of_ne_zero h0
    refine ⟨⟨?_, ?_⟩, ?_, ?_⟩
    · intro herr
      right
      by_contra hnot
      push_neg at hnot
      obtain ⟨c, hc, hcb⟩ := hnot
      obtain ⟨j, hj⟩ := List.mem_iff_getElem?.mp hc
      have hjlen : j < b.conns.length := by
        obtain ⟨hlt, _⟩ := List.getElem?_eq_some.mp hj
        exact hlt
      obtain ⟨k, hk, hkj⟩ := rot_hit hn hidx' hjlen
      obtain ⟨c', hc'⟩ := getLoop_ok_of_exists f b.conns hn b.conns.length b.idx hidx'
        ⟨k, hk, c, by rw [hkj]; exact hj, Bool.not_eq_true _ ▸ hcb⟩
      rw [Get, if_neg h0] at herr
      simp only [hc'] at herr
      cases herr
    · intro hall
      rcases hall with he | hall
      · exact absurd (by rw [he]; rfl) h0
      · have hloop := getLoop_all_broken f b.conns hall b.conns.length b.idx hidx'
        rw [Get, if_neg h0]
        simp [hloop]
    · rw [getExamined, if_neg h0]
      exact getLoop_examined_le f b.conns b.conns.length b.idx
    · rcases getLoop_result_cases f b.conns b.conns.length b.idx with hl | ⟨c, hl, hm, hb⟩
      · left
        rw [Get, if_neg h0]
        simp [hl]
      · right
        refine ⟨c, ?_, hm, hb⟩
        rw [Get, if_neg h0]
        simp [hl]

/-- Witness for C2 at the pool `[true, false]` (first connection broken,
second live, `IsBroken` the identity) with cursor `0`. -/
theorem claim_C2_witness :
    ((⟨[true, false], 0⟩ : Balancer Bool).idx < (⟨[true, false], 0⟩ : Balancer Bool).conns.length ∨
      (⟨[true, false], 0⟩ : Balancer Bool).conns = []) ∧
    (((Get (fun x => x) (⟨[true, false], 0⟩ : Balancer Bool)).1 = Except.error ErrNoConn ↔
      ((⟨[true, false], 0⟩ : Balancer Bool).conns = [] ∨
        ∀ c ∈ (⟨[true, false], 0⟩ : Balancer Bool).conns, (fun x => x) c = true)) ∧
    getExamined (fun x => x) (⟨[true, false], 0⟩ : Balancer Bool)
      ≤ (⟨[true, false], 0⟩ : Balancer Bool).conns.length ∧
    ((Get (fun x => x) (⟨[true, false], 0⟩ : Balancer Bool)).1 = Except.error ErrNoConn ∨
      ∃ c, (Get (fun x => x) (⟨[true, false], 0⟩ : Balancer Bool)).1 = Except.ok c ∧
        c ∈ (⟨[true, false], 0⟩ : Balancer Bool).conns ∧ (fun x => x) c = false)) :=
  ⟨Or.inl (by decide), claim_C2 (fun x => x) ⟨[true, false], 0⟩ (Or.inl (by decide))⟩

/-- **C3**: if exactly one connection in the pool reports not-broken (the
one at position `j`) and all others report broken, every `Get` call returns
that connection, whatever the (valid) cursor position. -/
theorem claim_C3 {α : Type} (f : α → Bool) (b : Balancer α) (j : Nat) (cj : α)
    (hidx : b.idx < b.conns.length)
    (hj : b.conns[j]? = some cj) (hlivej : f cj = false)
    (hothers : ∀ i : Fin b.conns.length, (i : Nat) ≠ j → f (b.conns.get i) = true) :
    (Get f b).1 = Except.ok cj := by
  have hn : 0 < b.conns.length := Nat.lt_of_le_of_lt (Nat.zero_le _) hidx
  have h0 : ¬ b.conns.length = 0 := by omega
  have hjlen : j < b.conns.length := by
    obtain ⟨hlt, _⟩ := List.getElem?_eq_some.mp hj
    exact hlt
  obtain ⟨k, hk, hkj⟩ := rot_hit hn hidx hjlen
  obtain ⟨c', hc'⟩ := getLoop_ok_of_exists f b.conns hn b.conns.length b.idx hidx
    ⟨k, hk, cj, by rw [hkj]; exact hj, hlivej⟩
  rcases getLoop_result_cases f b.conns b.conns.length b.idx with hl | ⟨c, hl, hm, hb⟩
  · rw [hl] at hc'
    cases hc'
  · obtain ⟨i, hi⟩ := List.mem_iff_getElem?.mp hm
    have hilen : i < b.conns.length := by
      obtain ⟨hlt, _⟩ := List.getElem?_eq_some.mp hi
      exact hlt
    have hij : i = j := by
      by_contra hne
      have hbrok := hothers ⟨i, hilen⟩ hne
      have hel : b.conns.get ⟨i, hilen⟩ = c := by
        have h5 := List.getElem?_eq_getElem hilen
        rw [List.get_eq_getElem]
        exact (Option.some.inj (hi.symm.trans h5)).symm
      rw [hel] at hbrok
      rw [hbrok] at hb
      cases hb
    have hcj : c = cj := by
      rw [hij, hj] at hi
      exact Option.some.inj hi.symm
    rw [Get, if_neg h0]
    simp [hl, hcj]

/-- Witness for C3 at the pool `[true, false, true]` (`IsBroken` the
identity: only position `1` is live) with cursor `2`. -/
theorem claim_C3_witness :
    ((⟨[true, false, true], 2⟩ : Balancer Bool).idx
        < (⟨[true, false, true], 2⟩ : Balancer Bool).conns.length ∧
      (⟨[true, false, true], 2⟩ : Balancer Bool).conns[1]? = some false ∧
      (fun x => x) false = false ∧
      ∀ i : Fin (⟨[true, false, true], 2⟩ : Balancer Bool).conns.length, (i : Nat) ≠ 1 →
        (fun x => x) ((⟨[true, false, true], 2⟩ : Balancer Bool).conns.get i) = true) ∧
    (Get (fun x => x) (⟨[true, false, true], 2⟩ : Balancer Bool)).1 = Except.ok false :=
  ⟨⟨by decide, by decide, by decide, by decide⟩,
    claim_C3 (fun x => x) ⟨[true, false, true], 2⟩ 1 false (by decide) (by decide) (by decide)
      (by decide)⟩

/-- **C4**: the next-interval computation of the heartbeat loop: when the
connection is not broken, the returned and stored interval are reset to the
initial retry interval (of the mode in effect); when it is broken, the
returned and stored interval equal `min (current * 2) maxInterval`, `current`
being the value retained from the previous cycle — so consecutive failures
double the interval until it is capped at the maximum.  The hypotheses state
that the retained value is in range (which holds in every state reachable
under a fixed mode, `claim_C5_amended`), so the `int64` doubling does not
overflow. -/
theorem claim_C4 (m : Bool) (c : HttpConnection)
    (h1 : initialIntervalOf m ≤ c.currentRetryInterval)
    (h2 : c.currentRetryInterval ≤ maxIntervalOf m) :
    (c.broken = false →
      (getNextInterval m c).1 = initialIntervalOf m ∧
      (getNextInterval m c).2.currentRetryInterval = initialIntervalOf m) ∧
    (c.broken = true →
      (getNextInterval m c).1
        = min (c.currentRetryInterval * retryMultiplier) (maxIntervalOf m) ∧
      (getNextInterval m c).2.currentRetryInterval
        = min (c.currentRetryInterval * retryMultiplier) (maxIntervalOf m)) := by
  have hbounds : 0 < c.currentRetryInterval ∧
      c.currentRetryInterval ≤ 5 * 60 * 1000000000 := by
    cases m <;>
      simp only [initialIntervalOf, maxIntervalOf, testInitialRetryInterval,
        testMaxRetryInterval, initialRetryInterval, maxRetryInterval] at h1 h2 <;>
      omega
  have hw : wrap64 (c.currentRetryInterval * retryMultiplier)
      = c.currentRetryInterval * retryMultiplier := by
    apply wrap64_eq_self <;> simp only [retryMultiplier] <;> omega
  cases hb : c.broken
  case false =>
    refine ⟨fun _ => ?_, fun ht => absurd ht (by decide)⟩
    cases m <;> simp [getNextInterval, hb, initialIntervalOf]
  case true =>
    refine ⟨fun hf => absurd hf (by decide), fun _ => ?_⟩
    cases m <;>
      simp only [getNextInterval, hb, Bool.not_true, Bool.false_eq_true, if_false,
        ite_false, maxIntervalOf, if_true, ite_true, hw] <;>
      simp only [maxRetryInterval, testMaxRetryInterval, retryMultiplier, min_def] <;>
      constructor <;>
      omega

/-- Witness for C4 at a broken connection in production mode holding the
initial interval: the next interval is `min(60 s, 5 min) = 60 s`. -/
theorem claim_C4_witness :
    (initialIntervalOf false ≤
        (⟨true, initialRetryInterval⟩ : HttpConnection).currentRetryInterval ∧
      (⟨true, initialRetryInterval⟩ : HttpConnection).currentRetryInterval
        ≤ maxIntervalOf false) ∧
    ((⟨true, initialRetryInterval⟩ : HttpConnection).broken = true →
      (getNextInterval false ⟨true, initialRetryInterval⟩).1
        = min ((⟨true, initialRetryInterval⟩ : HttpConnection).currentRetryInterval
            * retryMultiplier) (maxIntervalOf false) ∧
      (getNextInterval false ⟨true, initialRetryInterval⟩).2.currentRetryInterval
        = min ((⟨true, initialRetryInterval⟩ : HttpConnection).currentRetryInterval
            * retryMultiplier) (maxIntervalOf false)) :=
  ⟨⟨by decide, by decide⟩,
    (claim_C4 false ⟨true, initialRetryInterval⟩ (by decide) (by decide)).2⟩

/-- **C5, counterexample**: the claimed invariant — the stored interval always
lies in `[initialInterval, maxInterval]` under *any* setting of the test-mode
flag — fails when the flag changes between operations.  A connection
constructed while `testMode` was set (stored interval `100 ms`) whose first
probe failed, updated by one next-interval computation after `SetTestMode(false)`,
stores `min(200 ms, 5 min) = 200 ms`, below `initialRetryInterval = 30 s`:
outside the range in effect at that update. -/
theorem claim_C5_counterexample :
    ¬ (initialIntervalOf false ≤
        (getNextInterval false (NewHttpConnection true ProbeResult.doError)).2.currentRetryInterval ∧
      (getNextInterval false (NewHttpConnection true ProbeResult.doError)).2.currentRetryInterval
        ≤ maxIntervalOf false) := by
  decide

/-- **C5, amended**: if the global test-mode flag keeps one value from the
connection's construction through every subsequent operation, then the stored
retry interval always lies in `[initialInterval, maxInterval]` of that mode:
it is in range at construction and stays in range after any sequence of
probes (`checkBroken`) and next-interval computations (`getNextInterval`). -/
theorem claim_C5_amended (m : Bool) (p : ProbeResult) (evs : List ConnEvent) :
    initialIntervalOf m ≤ (runConn m p evs).currentRetryInterval ∧
      (runConn m p evs).currentRetryInterval ≤ maxIntervalOf m := by
  unfold runConn
  apply foldl_interval_bounds
  · rw [NewHttpConnection_currentRetryInterval]
  · rw [NewHttpConnection_currentRetryInterval]
    cases m <;> decide

/-- **C6**: `NewBalancerFromURL` validates the configured retry intervals
before creating any connection (and hence before any heartbeat loop starts):
whenever `initialRetryInterval ≤ 0`, `maxRetryInterval ≤ 0`, or
`maxRetryInterval < initialRetryInterval` after applying the options, it
returns one of the three descriptive errors with zero connections created;
with valid intervals and parseable URLs it succeeds, creating one connection
per URL. -/
theorem claim_C6 (parse : String → Option String) (urls : List String)
    (opts : List (BalancerOptions → BalancerOptions)) :
    (((applyOptions opts).initialRetryInterval ≤ 0 ∨
      (applyOptions opts).maxRetryInterval ≤ 0 ∨
      (applyOptions opts).maxRetryInterval < (applyOptions opts).initialRetryInterval) →
      ∃ msg, NewBalancerFromURL parse urls opts = (Except.error msg, 0) ∧
        (msg = "initial retry interval must be greater than 0" ∨
          msg = "max retry interval must be greater than 0" ∨
          msg = "max retry interval must be greater than or equal to initial retry interval")) ∧
    (0 < (applyOptions opts).initialRetryInterval →
      0 < (applyOptions opts).maxRetryInterval →
      (applyOptions opts).initialRetryInterval ≤ (applyOptions opts).maxRetryInterval →
      (∀ u ∈ urls, (parse u).isSome) →
      ∃ pool, NewBalancerFromURL parse urls opts = (Except.ok pool, urls.length) ∧
        pool.length = urls.length) := by
  by_cases hA : (applyOptions opts).initialRetryInterval ≤ 0
  · refine ⟨fun _ => ⟨_, ?_, Or.inl rfl⟩, fun hi _ _ _ => absurd hA (by omega)⟩
    simp [NewBalancerFromURL, hA]
  · by_cases hB : (applyOptions opts).maxRetryInterval ≤ 0
    · refine ⟨fun _ => ⟨_, ?_, Or.inr (Or.inl rfl)⟩, fun _ hm _ _ => absurd hB (by omega)⟩
      simp [NewBalancerFromURL, hA, hB]
    · by_cases hC : (applyOptions opts).maxRetryInterval
          < (applyOptions opts).initialRetryInterval
      · refine ⟨fun _ => ⟨_, ?_, Or.inr (Or.inr rfl)⟩, fun _ _ hle _ => absurd hC (by omega)⟩
        simp [NewBalancerFromURL, hA, hB, hC]
      · refine ⟨fun hbad => absurd hbad (by omega), fun _ _ _ hparse => ?_⟩
        obtain ⟨pool, hpool, hlen⟩ := buildConns_ok parse urls hparse [] 0
        refine ⟨pool, ?_, by simpa using hlen⟩
        simp [NewBalancerFromURL, hA, hB, hC, hpool]

/-- Witness for C6: an explicit zero initial interval is rejected with the
descriptive error and no connection created; the default options with one
parseable URL succeed with a pool of one. -/
theorem claim_C6_witness :
    ((applyOptions [WithInitialRetryInterval 0]).initialRetryInterval ≤ 0 ∨
      (applyOptions [WithInitialRetryInterval 0]).maxRetryInterval ≤ 0 ∨
      (applyOptions [WithInitialRetryInterval 0]).maxRetryInterval
        < (applyOptions [WithInitialRetryInterval 0]).initialRetryInterval) ∧
    (∃ msg, NewBalancerFromURL (fun s => some s) ["http://s1"] [WithInitialRetryInterval 0]
        = (Except.error msg, 0) ∧
      (msg = "initial retry interval must be greater than 0" ∨
        msg = "max retry interval must be greater than 0" ∨
        msg = "max retry interval must be greater than or equal to initial retry interval")) ∧
    (0 < (applyOptions []).initialRetryInterval ∧
      0 < (applyOptions []).maxRetryInterval ∧
      (applyOptions []).initialRetryInterval ≤ (applyOptions []).maxRetryInterval ∧
      ∀ u ∈ ["http://s1"], ((fun s => some s) u).isSome) ∧
    (∃ pool, NewBalancerFromURL (fun s => some s) ["http://s1"] []
        = (Except.ok pool, ["http://s1"].length) ∧ pool.length = ["http://s1"].length) :=
  ⟨Or.inl (by decide),
    (claim_C6 (fun s => some s) ["http://s1"] [WithInitialRetryInterval 0]).1
      (Or.inl (by decide)),
    ⟨by decide, by decide, by decide, by decide⟩,
    (claim_C6 (fun s => some s) ["http://s1"] []).2 (by decide) (by decide) (by decide)
      (by decide)⟩

/-- **C7**: after one probe, the connection is not-broken iff the HTTP request
succeeded with status exactly `200`: any other status, any transport error
and any request-construction failure mark it broken.  `checkBroken` returns
only the updated connection — its Go counterpart has no error result, so no
probe outcome reaches a caller as an error — and it never touches the stored
retry interval. -/
theorem claim_C7 (r : ProbeResult) (c : HttpConnection) :
    ((checkBroken r c).broken = false ↔ r = ProbeResult.response 200) ∧
    (checkBroken r c).currentRetryInterval = c.currentRetryInterval := by
  refine ⟨?_, checkBroken_currentRetryInterval r c⟩
  cases r with
  | newRequestError => simp [checkBroken]
  | doError => simp [checkBroken]
  | response s =>
    by_cases hs : s = 200 <;> simp [checkBroken, hs]

/-- **C8**: in every reachable state of the heartbeat/Close system in which
`Close` has returned, the heartbeat goroutine has terminated, the `broken`
flag has been reset to its default `false`, and no step at all — in
particular no probe and no liveness mutation — is possible any more.
Moreover, the only transition that ever terminates the loop is the
rendezvous with a `Close` call in progress: a probe (whatever its outcome)
leaves the loop running. -/
theorem claim_C8 (m : Bool) (p : ProbeResult) (s : SysState)
    (hreach : sysReach m (initSys m p) s) (hret : s.cl = CloseState.returned) :
    s.hb = HbState.done ∧ s.conn.broken = false ∧
    (∀ t, ¬ HbStep m s t) ∧
    (∀ t u, HbStep m t u → t.hb = HbState.selecting → u.hb = HbState.done →
      t.cl = CloseState.sending) := by
  obtain ⟨hinv1, hinv2⟩ := sysInv m p s hreach
  have hdone : s.hb = HbState.done := hinv1 (Or.inr hret)
  refine ⟨hdone, hinv2 hret, ?_, ?_⟩
  · intro t hstep
    obtain ⟨conn, hb, cl⟩ := s
    simp only at hdone hret
    subst hdone
    subst hret
    cases hstep
  · intro t u hstep h1 h2
    cases hstep with
    | timerFire r c cl => simp at h2
    | closeCall c hb =>
      simp only at h1 h2
      rw [h1] at h2
      simp at h2
    | rendezvous c => rfl
    | closeReturn c hb =>
      simp only at h1 h2
      rw [h1] at h2
      simp at h2

/-- Witness for C8: from a freshly constructed, live connection in
production mode, the trace `Close` entered → rendezvous → `Close` returned
reaches a state with `cl = returned`, and the theorem's conclusions hold
there. -/
theorem claim_C8_witness :
    (sysReach false (initSys false (ProbeResult.response 200))
        ⟨⟨false, initialRetryInterval⟩, HbState.done, CloseState.returned⟩ ∧
      (⟨⟨false, initialRetryInterval⟩, HbState.done, CloseState.returned⟩ : SysState).cl
        = CloseState.returned) ∧
    ((⟨⟨false, initialRetryInterval⟩, HbState.done, CloseState.returned⟩ : SysState).hb
        = HbState.done ∧
      (⟨⟨false, initialRetryInterval⟩, HbState.done,
          CloseState.returned⟩ : SysState).conn.broken = false ∧
      (∀ t, ¬ HbStep false
        ⟨⟨false, initialRetryInterval⟩, HbState.done, CloseState.returned⟩ t) ∧
      (∀ t u, HbStep false t u → t.hb = HbState.selecting → u.hb = HbState.done →
        t.cl = CloseState.sending)) := by
  have h1 : HbStep false (initSys false (ProbeResult.response 200))
      ⟨⟨false, initialRetryInterval⟩, HbState.selecting, CloseState.sending⟩ := by
    have hinit : initSys false (ProbeResult.response 200)
        = ⟨⟨false, initialRetryInterval⟩, HbState.selecting, CloseState.idle⟩ := by decide
    rw [hinit]
    exact HbStep.closeCall ⟨false, initialRetryInterval⟩ HbState.selecting
  have h2 : HbStep false
      (⟨⟨false, initialRetryInterval⟩, HbState.selecting, CloseState.sending⟩ : SysState)
      ⟨⟨false, initialRetryInterval⟩, HbState.done, CloseState.afterSend⟩ :=
    HbStep.rendezvous ⟨false, initialRetryInterval⟩
  have h3 : HbStep false
      (⟨⟨false, initialRetryInterval⟩, HbState.done, CloseState.afterSend⟩ : SysState)
      ⟨⟨false, initialRetryInterval⟩, HbState.done, CloseState.returned⟩ :=
    HbStep.closeReturn ⟨false, initialRetryInterval⟩ HbState.done
  have hr : sysReach false (initSys false (ProbeResult.response 200))
      ⟨⟨false, initialRetryInterval⟩, HbState.done, CloseState.returned⟩ :=
    Relation.ReflTransGen.head h1
      (Relation.ReflTransGen.head h2 (Relation.ReflTransGen.single h3))
  exact ⟨⟨hr, rfl⟩, claim_C8 false (ProbeResult.response 200) _ hr rfl⟩

/-- **C9, counterexample**: the claim — mutating any element of the returned
slice *or state reachable from it* leaves the balancer's own pool and
subsequent behaviour unchanged — fails, because the Go clone `*cr = *oc`
copies the `url` field as a pointer and the `heartbeatStop` field as a
channel handle.  Concretely: a pool of one connection (cell `0`, URL
pointer `0`, stop channel `0`); the snapshot's only entry is the fresh
clone at cell `1`; the clone's `urlPtr` and `heartbeatStopChan` equal the
original's; and writing the URL heap through the clone's `urlPtr` (Go:
`conns[0].URL().Host = …` on the snapshot; likewise a type-asserted
`Close()` on the clone sends on the shared stop channel the original's
heartbeat loop receives on) changes the URL the pool's own connection
dereferences — state reachable from the snapshot aliases live pool
state. -/
theorem claim_C9_counterexample :
    (Connections (NewBalancer [Connection.http 0])
        (fun _ => ⟨false, initialRetryInterval, 0, 0⟩) 1).1
      = [some (Connection.http 1)] ∧
    ((Connections (NewBalancer [Connection.http 0])
        (fun _ => ⟨false, initialRetryInterval, 0, 0⟩) 1).2.1 1).urlPtr
      = ((Connections (NewBalancer [Connection.http 0])
        (fun _ => ⟨false, initialRetryInterval, 0, 0⟩) 1).2.1 0).urlPtr ∧
    ((Connections (NewBalancer [Connection.http 0])
        (fun _ => ⟨false, initialRetryInterval, 0, 0⟩) 1).2.1 1).heartbeatStopChan
      = ((Connections (NewBalancer [Connection.http 0])
        (fun _ => ⟨false, initialRetryInterval, 0, 0⟩) 1).2.1 0).heartbeatStopChan ∧
    connURL
      (heapWrite (fun _ => "http://127.0.0.1:12345")
        ((Connections (NewBalancer [Connection.http 0])
          (fun _ => ⟨false, initialRetryInterval, 0, 0⟩) 1).2.1 1).urlPtr
        "http://10.9.9.9:1")
      ((Connections (NewBalancer [Connection.http 0])
        (fun _ => ⟨false, initialRetryInterval, 0, 0⟩) 1).2.1 0)
      = "http://10.9.9.9:1" ∧
    connURL (fun _ => "http://127.0.0.1:12345")
      ((Connections (NewBalancer [Connection.http 0])
        (fun _ => ⟨false, initialRetryInterval, 0, 0⟩) 1).2.1 0)
      ≠ "http://10.9.9.9:1" :=
  ⟨rfl, rfl, rfl, rfl, by decide⟩

/-- **C9, amended**: `Connections` hands back freshly allocated clones,
never the pool's own cells — every snapshot address is at or above the
allocation counter, hence distinct from every pool address, and taking the
snapshot leaves every pool cell untouched.  Each snapshot entry is a
field-for-field struct copy of its pool original (the cells are equal,
pointer fields included): the `broken` flag and retry interval are
duplicated, while the `url` pointer and `heartbeatStop` channel are
shared.  Consequently mutating the clones' own copied state — any write
confined to non-pool addresses of the connection heap — changes no
original connection's `broken` flag, no balancer state, and the outcome
of no subsequent `Get` call; mutations through the shared `url` pointer
or stop channel are exactly the ones that do reach the pool
(`claim_C9_counterexample`).  The hypothesis is the allocation-counter
well-formedness: every pool address is a live (previously allocated)
one. -/
theorem claim_C9_amended (b : Balancer Connection) (heap : Nat → HttpConnCell) (next : Nat)
    (hwf : ∀ a, Connection.http a ∈ b.conns → a < next) :
    (∀ a, some (Connection.http a) ∈ (Connections b heap next).1 → next ≤ a) ∧
    (∀ a, a < next → (Connections b heap next).2.1 a = heap a) ∧
    (∀ (i a : Nat), b.conns[i]? = some (Connection.http a) →
      ∃ a2 : Nat, (Connections b heap next).1[i]? = some (some (Connection.http a2)) ∧ next ≤ a2 ∧
        (Connections b heap next).2.1 a2 = heap a) ∧
    (∀ heap2 : Nat → HttpConnCell, (∀ a, a < next → heap2 a = heap a) →
      (∀ a, Connection.http a ∈ b.conns → (heap2 a).broken = (heap a).broken) ∧
      (∀ k, afterCalls (isBrokenRef heap2) b k = afterCalls (isBrokenRef heap) b k) ∧
      (∀ k, callResult (isBrokenRef heap2) b k = callResult (isBrokenRef heap) b k)) := by
  obtain ⟨hfresh, hpres⟩ := connectionsLoop_spec b.conns heap next
  refine ⟨hfresh, hpres, connectionsLoop_clone b.conns heap next hwf, ?_⟩
  intro heap2 hagree
  have hcong : ∀ c ∈ b.conns, isBrokenRef heap2 c = isBrokenRef heap c := by
    intro c hc
    cases c with
    | http a =>
      simp only [isBrokenRef]
      rw [hagree a (hwf a hc)]
    | otherImpl v => rfl
  refine ⟨fun a ha => by rw [hagree a (hwf a ha)], ?_, ?_⟩
  · exact afterCalls_congr _ _ b hcong
  · exact callResult_congr _ _ b hcong

/-- Witness for the amended C9: a pool of one `*HttpConnection` at heap
address `0` with allocation counter `1`. -/
theorem claim_C9_witness :
    (∀ a, Connection.http a ∈ (NewBalancer [Connection.http 0]).conns → a < 1) ∧
    ((∀ a, some (Connection.http a) ∈
        (Connections (NewBalancer [Connection.http 0])
          (fun _ => ⟨false, initialRetryInterval, 0, 0⟩) 1).1 → 1 ≤ a) ∧
      (∀ a, a < 1 → (Connections (NewBalancer [Connection.http 0])
          (fun _ => ⟨false, initialRetryInterval, 0, 0⟩) 1).2.1 a
        = (fun _ => (⟨false, initialRetryInterval, 0, 0⟩ : HttpConnCell)) a) ∧
      (∀ (i a : Nat), (NewBalancer [Connection.http 0]).conns[i]? = some (Connection.http a) →
        ∃ a2 : Nat, (Connections (NewBalancer [Connection.http 0])
            (fun _ => ⟨false, initialRetryInterval, 0, 0⟩) 1).1[i]?
            = some (some (Connection.http a2)) ∧ 1 ≤ a2 ∧
          (Connections (NewBalancer [Connection.http 0])
            (fun _ => ⟨false, initialRetryInterval, 0, 0⟩) 1).2.1 a2
            = (fun _ => (⟨false, initialRetryInterval, 0, 0⟩ : HttpConnCell)) a) ∧
      (∀ heap2 : Nat → HttpConnCell,
        (∀ a, a < 1 →
          heap2 a = (fun _ => (⟨false, initialRetryInterval, 0, 0⟩ : HttpConnCell)) a) →
        (∀ a, Connection.http a ∈ (NewBalancer [Connection.http 0]).conns →
          (heap2 a).broken
            = ((fun _ => (⟨false, initialRetryInterval, 0, 0⟩ : HttpConnCell)) a).broken) ∧
        (∀ k, afterCalls (isBrokenRef heap2) (NewBalancer [Connection.http 0]) k
          = afterCalls (isBrokenRef fun _ => ⟨false, initialRetryInterval, 0, 0⟩)
              (NewBalancer [Connection.http 0]) k) ∧
        (∀ k, callResult (isBrokenRef heap2) (NewBalancer [Connection.http 0]) k
          = callResult (isBrokenRef fun _ => ⟨false, initialRetryInterval, 0, 0⟩)
              (NewBalancer [Connection.http 0]) k))) := by
  have hwf : ∀ a, Connection.http a ∈ (NewBalancer [Connection.http 0]).conns → a < 1 := by
    intro a ha
    simp only [NewBalancer, List.mem_singleton, Connection.http.injEq] at ha
    omega
  exact ⟨hwf, claim_C9_amended (NewBalancer [Connection.http 0])
    (fun _ => ⟨false, initialRetryInterval, 0, 0⟩) 1 hwf⟩

/-- **C10**: evaluation of `Connections` on a balancer built by `NewBalancer`
from one `Connection` value whose concrete type is not `*HttpConnection`.
The returned slice has the right length, but its single entry is `nil`
(`none`): the `for` loop of `Connections` only fills entries for values whose
type assertion to `*HttpConnection` succeeds, leaving every other entry at
the slice's zero value — the claim's "every element is non-nil" fails. -/
theorem claim_C10_code_evaluation :
    (Connections (NewBalancer [Connection.otherImpl false])
        (fun _ => ⟨false, initialRetryInterval, 0, 0⟩) 0).1.length
      = (NewBalancer [Connection.otherImpl false]).conns.length ∧
    (Connections (NewBalancer [Connection.otherImpl false])
        (fun _ => ⟨false, initialRetryInterval, 0, 0⟩) 0).1 = [none] :=
  ⟨rfl, rfl⟩
